import Mathlib

/-!
Shallow embedding of `src/FirstSourceScrapingCode.py` and verification of the
frozen claims about it.

Conventions of the embedding:
* Python `str` values are modelled as `String` at the API surface and as
  `List Char` (abbreviated `Name`) inside the file-system model, where prefix
  and suffix reasoning is needed.  Character classifications (`isalnum`,
  `isdigit`, `isspace`) are modelled over ASCII, which covers every string the
  program manipulates.
* The download directory is modelled as an ordered listing of entries
  (`FSEntry`): `glob.glob` preserves this listing order and filters by the
  (single-star) pattern, mirroring the patterns used by the source.
* `pandas.read_csv` on a file either yields its parsed rows (`some rows`) or
  raises (`none`, also for directories); the merge loops catch per-file
  exceptions exactly where the source does.
* Python exceptions are modelled with `Except`/`Option`: a function that lets
  an exception escape returns `.error`, a caught exception is handled in place.
-/

/-! ### Definitions: the shallow embedding of the program -/


abbrev Name := List Char

/-- Character kept by the sanitizer: `c.isalnum() or c == '_'` (line 43). -/
def keepChar (c : Char) : Bool := c.isAlphanum || c = '_'

/-- `text.replace(' ', '_')` on a one-character pattern acts character-wise. -/
def spaceToUnderscore (c : Char) : Char := if c = ' ' then '_' else c

/-- `text.replace('&', 'and')` acts character-wise, expanding `&`. -/
def ampToAnd (c : Char) : Name := if c = '&' then ['a', 'n', 'd'] else [c]

/-- `format_filename` (lines 40–44) over a character list:
`text.replace(' ', '_').replace('&', 'and')` followed by
`''.join(c for c in formatted if c.isalnum() or c == '_')`. -/
def fmtL (text : Name) : Name :=
  (((text.map spaceToUnderscore).flatMap ampToAnd).filter keepChar)

/-- `format_filename` (lines 40–44): converts text to a filename-friendly
format. -/
def format_filename (text : String) : String :=
  String.mk (fmtL text.toList)

/-! ## Decimal integer literals: Python `str(int)` and `int(str)`

`rename_downloaded_file` embeds `page_number` via an f-string (`str`), and
`combine_csv_files` recovers it with `int(...)` (line 109). -/

/-- The character for a single decimal digit `d < 10`. -/
def digitChar10 (d : Nat) : Char := Char.ofNat (48 + d)

/-- `str(n)` for a non-negative Python int: its decimal representation. -/
def natRepr (n : Nat) : Name :=
  if n = 0 then ['0'] else ((Nat.digits 10 n).reverse.map digitChar10)

/-- Python `str.isspace`-style whitespace recognized by `int(...)` stripping
(ASCII fragment). -/
def pySpace (c : Char) : Bool :=
  c = ' ' || c = '\t' || c = '\n' || c = '\r' || c = '\x0b' || c = '\x0c'

/-- `int(...)` strips whitespace from both ends before parsing. -/
def pyStrip (s : Name) : Name :=
  ((s.dropWhile pySpace).reverse.dropWhile pySpace).reverse

/-- Digit run after the first digit of an `int(...)` literal: digits with
single underscores allowed between digits (Python's `digitpart`). -/
def digitCore : Name → Bool
  | [] => true
  | c :: rest =>
    if c = '_' then
      match rest with
      | [] => false
      | d :: rest2 => d.isDigit && digitCore rest2
    else c.isDigit && digitCore rest

/-- Numeric value of a digit string (underscores already removed). -/
def digitsVal (ds : Name) : Nat :=
  ds.foldl (fun a c => 10 * a + (c.toNat - 48)) 0

/-- Unsigned part of `int(...)`: nonempty, starts with a digit, then
`digitCore`; value ignores underscores. -/
def pyIntCore (u : Name) : Option Nat :=
  match u with
  | [] => none
  | c :: rest =>
    if c.isDigit && digitCore rest then some (digitsVal (u.filter (· ≠ '_')))
    else none

/-- Python `int(s)` on a base-10 string literal (ASCII model): strip
whitespace, optional sign, digits with underscores; raises (`none`) on
anything else. -/
def pyInt (s : Name) : Option Int :=
  match pyStrip s with
  | [] => none
  | c :: rest =>
    if c = '+' then (pyIntCore rest).map (fun n => (n : Int))
    else if c = '-' then (pyIntCore rest).map (fun n => -(n : Int))
    else (pyIntCore (c :: rest)).map (fun n => (n : Int))


/-- Python `s.split(sep)` for a nonempty separator: left-to-right,
non-overlapping scan. `acc` holds the (reversed) characters of the current
segment. The `fuel` argument only makes the recursion structural: every call
keeps `fuel` at least the length of the remaining string, so the `0` case is
never reached from `splitOnL`. -/
def splitOnAux (sep : Name) : Nat → Name → Name → List Name
  | _, [], acc => [acc.reverse]
  | 0, s, acc => [acc.reverse ++ s]
  | fuel + 1, c :: rest, acc =>
    if sep.isPrefixOf (c :: rest) then
      acc.reverse :: splitOnAux sep fuel (rest.drop (sep.length - 1)) []
    else
      splitOnAux sep fuel rest (c :: acc)

/-- Python `s.split(sep)` for a nonempty separator. -/
def splitOnL (sep s : Name) : List Name := splitOnAux sep s.length s []

/-- `x.split(sep)[-1]`: the segment after the last occurrence (Python's
negative index on the nonempty result of `split`). -/
def lastSeg (sep s : Name) : Name := (splitOnL sep s).getLastD []

/-- `x.split(sep)[0]`: the segment before the first occurrence. -/
def firstSeg (sep s : Name) : Name := (splitOnL sep s).headD []

/-- The sort key of `combine_csv_files` (line 109):
`int(x.split('page_')[-1].split('.')[0])` on a file path `x`; `none` when
`int` raises. -/
def pageKey (x : Name) : Option Int :=
  pyInt (firstSeg ['.'] (lastSeg "page_".toList x))


/-- One entry of the download tree. `dir` is the path of the parent
directory, `name` the entry's own name; `rows` models what
`pandas.read_csv` would produce for the file (`none`: the read raises, e.g.
a corrupt or empty file). `mtime` models `os.path.getmtime`. -/
structure FSEntry where
  dir : Name
  name : Name
  isDir : Bool
  mtime : Nat
  rows : Option (List String)
deriving DecidableEq, Repr

/-- `os.path.join` with a forward slash (path separator is irrelevant to the
claims). -/
def joinP (d n : Name) : Name := d ++ '/' :: n

/-- Does an entry name begin with a dot (hidden file, skipped by `glob` when
the pattern starts with `*`)? -/
def startsDot : Name → Bool
  | '.' :: _ => true
  | _ => false

/-- `glob.glob(os.path.join(dir, pre + "*" + suf))`: entries of `dir` whose
name starts with `pre`, ends with `suf` (without overlap), in listing order;
names starting with `.` are matched only by patterns starting with `.`. -/
def globStar (fs : List FSEntry) (dir pre suf : Name) : List FSEntry :=
  fs.filter (fun e =>
    decide (e.dir = dir) && pre.isPrefixOf e.name && suf.isSuffixOf e.name &&
      decide (pre.length + suf.length ≤ e.name.length) &&
      (!startsDot e.name || startsDot pre))

/-- `pd.read_csv(path, ...)`: raises on directories, otherwise as recorded. -/
def readRows (e : FSEntry) : Option (List String) :=
  if e.isDir then none else e.rows

/-- The `for file_path in csv_files` concat loop of both merges (lines
114–119 and 148–154): each readable file's rows are appended; a raising
read is caught and the file skipped. -/
def concatRows (files : List FSEntry) : List String :=
  files.foldl
    (fun acc e => match readRows e with | some r => acc ++ r | none => acc) []

/-! Python `list.sort` is an ascending stable sort; `insertAfterEq` inserts an
element after all elements it is not strictly smaller than, so folding it
from the left yields exactly that stable sort. -/

def insertAfterEq (le : α → α → Bool) (a : α) : List α → List α
  | [] => [a]
  | b :: bs => if le b a then b :: insertAfterEq le a bs else a :: b :: bs

def stableSort (le : α → α → Bool) (l : List α) : List α :=
  l.foldl (fun acc a => insertAfterEq le a acc) []

/-! ## Naming helpers shared by `rename_downloaded_file`,
`move_files_to_directory`, `combine_csv_files` and `consolidate_state_files`.
All four derive the same directory / pattern / output names (lines 47–66,
69–79, 95–105, 131–135). -/

/-- `format_filename(state_name)` as a character list. -/
def fmtS (state_name : String) : Name := fmtL state_name.toList

/-- The per-query directory: `{state}_{businessType}` when filtering,
else `{state}` (lines 73–78 and 97–103), under the download directory. -/
def queryDirName (state_name : String) (business_type : Option String) : Name :=
  match business_type with
  | some b => fmtS state_name ++ '_' :: fmtL b.toList
  | none => fmtS state_name

def queryDir (dl : Name) (state_name : String) (business_type : Option String) : Name :=
  joinP dl (queryDirName state_name business_type)

/-- Glob prefix of the page-file pattern: `{state}_{business}_page_` resp.
`{state}_` (the pattern is that prefix, then `*`, then `.csv`). -/
def queryPre (state_name : String) (business_type : Option String) : Name :=
  match business_type with
  | some b => fmtS state_name ++ '_' :: fmtL b.toList ++ "_page_".toList
  | none => fmtS state_name ++ ['_']

/-- Name of the combined output file of `combine_csv_files` (lines 101/105). -/
def combinedName (state_name : String) (business_type : Option String) : Name :=
  queryDirName state_name business_type ++ "_combined.csv".toList

/-- Name of the consolidated output of `consolidate_state_files` (line 157). -/
def consolidatedName (state_name : String) : Name :=
  fmtS state_name ++ "_consolidated.csv".toList


/-- Sort key applied to the full globbed path (line 109). -/
def entryKey (directory_path : Name) (e : FSEntry) : Option Int :=
  pageKey (joinP directory_path e.name)

/-- Line 109: `csv_files.sort(key=lambda x: int(x.split('page_')[-1].split('.')[0]))`
— Python's stable ascending sort by the parsed page number (all keys known to
parse). -/
def sortByPage (directory_path : Name) (l : List FSEntry) : List FSEntry :=
  stableSort (fun a b =>
    decide ((entryKey directory_path a).getD 0 ≤ (entryKey directory_path b).getD 0)) l

/-- Line 111: `csv_files.sort(key=os.path.getmtime, reverse=True)` —
Python's stable descending sort by modification time. -/
def sortByMtime (l : List FSEntry) : List FSEntry :=
  stableSort (fun a b => decide (b.mtime ≤ a.mtime)) l

/-- `combine_csv_files` (lines 93–126), as a function of the directory
listing.  Returns `.error ()` when the un-caught sort-key exception of line
109 escapes the function, otherwise `.ok (some (output filename, rows))` when
a combined file is written and `.ok none` when not (line 126). -/
def combine_csv_files (fs : List FSEntry) (download_directory : Name)
    (state_name : String) (business_type : Option String) :
    Except Unit (Option (Name × List String)) :=
  let directory_path := queryDir download_directory state_name business_type
  let csv_files := globStar fs directory_path
    (queryPre state_name business_type) ".csv".toList
  let sortedE : Except Unit (List FSEntry) :=
    match business_type with
    | some _ =>
      if csv_files.all (fun e => (entryKey directory_path e).isSome) then
        .ok (sortByPage directory_path csv_files)
      else .error ()
    | none => .ok (sortByMtime csv_files)
  match sortedE with
  | .error _ => .error ()
  | .ok files =>
    let rows := concatRows files
    if rows = [] then .ok none
    else .ok (some (combinedName state_name business_type, rows))


/-- Line 135–136: `glob.glob(os.path.join(download_directory, f"{sf}_*"))` —
every entry (file or directory) under the download root whose name starts
with the sanitized state name and an underscore. -/
def stateFolders (fs : List FSEntry) (download_directory : Name)
    (state_name : String) : List FSEntry :=
  globStar fs download_directory (fmtS state_name ++ ['_']) []

/-- Line 146: `glob.glob(os.path.join(folder, "*_combined.csv"))`. -/
def folderCombined (fs : List FSEntry) (download_directory : Name)
    (folder : FSEntry) : List FSEntry :=
  globStar fs (joinP download_directory folder.name) [] "_combined.csv".toList

/-- `consolidate_state_files` (lines 129–161): `some (filename, rows)` when a
consolidated file is written, `none` when the function returns without
writing (no matching folders, line 140, or an empty concatenation, line
161). -/
def consolidate_state_files (fs : List FSEntry) (download_directory : Name)
    (state_name : String) : Option (Name × List String) :=
  let business_type_folders := stateFolders fs download_directory state_name
  if business_type_folders = [] then none
  else
    let rows := business_type_folders.foldl
      (fun acc folder =>
        acc ++ concatRows (folderCombined fs download_directory folder)) []
    if rows = [] then none
    else some (consolidatedName state_name, rows)


/-- Rows contributed by one input file: its parsed rows, or nothing when the
read raises (the per-file `except` of lines 118–119 / 153–154). -/
def rowsOf (e : FSEntry) : List String := (readRows e).getD []


/-- The file written by `combine_csv_files`, if any (`none` both when the
guard of line 121 skips the write and when the sort-key exception aborts the
call). -/
def writtenFile : Except Unit (Option (Name × List String)) → Option (Name × List String)
  | .ok o => o
  | .error _ => none


/-- The capture instant, as the fields `datetime.now().strftime('%Y%m%d%H%M%S')`
reads (second resolution). -/
structure PyDateTime where
  year : Nat
  month : Nat
  day : Nat
  hour : Nat
  minute : Nat
  second : Nat
deriving DecidableEq, Repr

/-- Zero-padding to two digits (`%m %d %H %M %S`). -/
def pad2 (n : Nat) : Name := if n < 10 then '0' :: natRepr n else natRepr n

/-- `now.strftime('%Y%m%d%H%M%S')` (line 52), for in-range dates. -/
def strftimeYmdHMS (t : PyDateTime) : Name :=
  natRepr t.year ++ pad2 t.month ++ pad2 t.day ++ pad2 t.hour ++
    pad2 t.minute ++ pad2 t.second

/-- A capture instant the program can meet: a four-digit year and calendar
field ranges. -/
def validDT (t : PyDateTime) : Prop :=
  1000 ≤ t.year ∧ t.year ≤ 9999 ∧ 1 ≤ t.month ∧ t.month ≤ 12 ∧
    1 ≤ t.day ∧ t.day ≤ 31 ∧ t.hour ≤ 23 ∧ t.minute ≤ 59 ∧ t.second ≤ 59

/-- `rename_downloaded_file` (lines 47–66): when `data.csv` exists it is
renamed to `{state}_{business}_page_{n}.csv` (businessType present) or
`{state}_{timestamp}.csv` (absent) inside the download directory, returning
the new path; otherwise nothing happens and `None` is returned. -/
def rename_downloaded_file (download_directory : Name) (data_csv_exists : Bool)
    (state_name : String) (business_type : Option String) (page_number : Nat)
    (now : PyDateTime) : Option Name :=
  if data_csv_exists then
    let new_filename :=
      match business_type with
      | some b => fmtS state_name ++ '_' :: fmtL b.toList ++ "_page_".toList
          ++ natRepr page_number ++ ".csv".toList
      | none => fmtS state_name ++ '_' :: strftimeYmdHMS now ++ ".csv".toList
    some (joinP download_directory new_filename)
  else none


/-- One iteration of the `while True` loop, as decided by the portal UI.
`preW` and `postW` are the durations (in seconds) of the bounded waits of the
iteration beyond the fixed sleeps: `preW` before the rename (export-link wait
of line 197 plus file wait of line 202), `postW` after it (next-button wait,
overlay handling, staleness wait of lines 207–225). -/
inductive IterOutcome where
  | exportFail (preW : Nat)
  | fileTimeout (preW : Nat)
  | nextFail (preW : Nat)
  | advance (preW postW : Nat)
deriving DecidableEq, Repr

/-- The pagination loop of `download_and_process_data` (lines 193–228),
driven by a script of UI outcomes. State: `page_number` (starts at 1, line
193) and the current time `t` in seconds. Each iteration sleeps 5 (line
196); on success the rename happens at `t + 5 + preW`; the fixed sleeps of
lines 211 and 223 (1 + 5 seconds) put the next iteration's rename at least
11 seconds later. Any exception (export link or `data.csv` never appearing,
next button missing, staleness timeout) breaks the loop (line 226–228):
result `true` means the loop Terminated; an exhausted script means it is
still running. Returns the emitted artifacts as (page number, capture
time). -/
def runPagination : List IterOutcome → Nat → Nat → List (Nat × Nat) × Bool
  | [], _, _ => ([], false)
  | ev :: rest, page_number, t =>
    match ev with
    | .exportFail _ => ([], true)
    | .fileTimeout _ => ([], true)
    | .nextFail preW => ([(page_number, t + 5 + preW)], true)
    | .advance preW postW =>
      let r := runPagination rest (page_number + 1) (t + preW + postW + 11)
      ((page_number, t + 5 + preW) :: r.1, r.2)


/-- One (state, optional business type) combination. -/
structure Query where
  state : String
  businessType : Option String
deriving DecidableEq, Repr

/-- Lines 242–245. -/
def business_filtered_states : List String :=
  ["Maharashtra", "NCT of Delhi", "Rajasthan", "Tamil Nadu", "Telangana",
   "Uttar Pradesh", "Gujarat", "Haryana", "Karnataka", "West Bengal"]

/-- Lines 248–254. -/
def other_states : List String :=
  ["Andaman & Nicobar", "Manipur", "Meghalaya", "Mizoram", "Nagaland", "Odisha",
   "Puducherry", "Punjab", "Sikkim", "Tripura", "Uttarakhand", "Madhya Pradesh",
   "Lakshadweep", "Ladakh", "Andhra Pradesh", "Arunachal Pradesh", "Assam",
   "Bihar", "Chandigarh", "Chhattisgarh", "Dadra & Nagar Haveli", "Daman & Diu",
   "Goa", "Himachal Pradesh", "Jammu & Kashmir", "Jharkhand", "Kerala"]

/-- Lines 256–276. -/
def business_types : List String :=
  ["Agriculture and Allied Activities",
   "Business Services",
   "Community, personal & Social Services",
   "Construction",
   "Electricity, Gas & Water companies",
   "Finance",
   "Insurance",
   "Manufacturing (Food stuffs)",
   "Manufacturing (Leather & products thereof)",
   "Manufacturing (Machinery & Equipments)",
   "Manufacturing (Metals & Chemicals, and products thereof)",
   "Manufacturing (Others)",
   "Manufacturing (Paper & Paper products, Publishing, printing and reproduction of recorded media)",
   "Manufacturing (Textiles)",
   "Manufacturing (Wood Products)",
   "Mining & Quarrying",
   "Real Estate and Renting",
   "Trading",
   "Transport, storage and Communications"]

/-- What the operator-facing log records about one step of `main`. -/
inductive RunEvent where
  | attempted (q : Query) (ok : Bool)
  | skipped (q : Query)
  | consolidated (state_name : String)
deriving DecidableEq, Repr

/-- One guarded call: `driver.get(...)` plus `download_and_process_data`
inside `try/except: continue` (lines 292–299 and 308–315).
`download_and_process_data` itself re-raises whatever escapes its own
session handling (lines 233–235); the orchestrator's handler catches it, so
the call yields an event rather than an exception. -/
def queryRun (outcome : Query → Except String Unit) (q : Query) : RunEvent :=
  match outcome q with
  | .ok _ => .attempted q true
  | .error _ => .attempted q false

/-- The inner loop body for one business-filtered state (lines 286–303):
every business type in order, with the hardcoded Maharashtra / Business
Services skip (lines 288–290), then one consolidation (line 303). -/
def runFilteredState (outcome : Query → Except String Unit)
    (state : String) : List RunEvent :=
  (business_types.map (fun bt =>
    if state = "Maharashtra" ∧ bt = "Business Services" then
      .skipped ⟨state, some bt⟩
    else queryRun outcome ⟨state, some bt⟩)) ++ [.consolidated state]

/-- The event trace of `main`'s two loops (lines 284–315), as a function of
each query's session outcome. -/
def mainTrace (outcome : Query → Except String Unit) : List RunEvent :=
  (business_filtered_states.map (runFilteredState outcome)).flatten
    ++ other_states.map (fun s => queryRun outcome ⟨s, none⟩)

/-- Forget whether an attempt succeeded, keeping which query was attempted. -/
def forgetOutcome : RunEvent → RunEvent
  | .attempted q _ => .attempted q true
  | e => e

/-! ### Theorems: supporting lemmas and the claims -/

theorem keepChar_of_mem_fmtL {c : Char} {t : Name} (h : c ∈ fmtL t) :
    keepChar c = true :=
  List.of_mem_filter h

theorem fmtL_idem (t : Name) : fmtL (fmtL t) = fmtL t := by
  have hkeep : ∀ c ∈ fmtL t, keepChar c = true := fun c hc => keepChar_of_mem_fmtL hc
  have hmap : (fmtL t).map spaceToUnderscore = fmtL t := by
    have : ∀ c ∈ fmtL t, spaceToUnderscore c = c := by
      intro c hc
      have hk := hkeep c hc
      have hne : c ≠ ' ' := by
        intro h
        subst h
        simp [keepChar, Char.isAlphanum, Char.isAlpha, Char.isDigit,
          Char.isUpper, Char.isLower] at hk
      simp [spaceToUnderscore, hne]
    calc (fmtL t).map spaceToUnderscore = (fmtL t).map id := List.map_congr_left this
      _ = fmtL t := List.map_id _
  have hflat : (fmtL t).flatMap ampToAnd = fmtL t := by
    have : ∀ c ∈ fmtL t, ampToAnd c = [c] := by
      intro c hc
      have hk := hkeep c hc
      have hne : c ≠ '&' := by
        intro h
        subst h
        simp [keepChar, Char.isAlphanum, Char.isAlpha, Char.isDigit,
          Char.isUpper, Char.isLower] at hk
      simp [ampToAnd, hne]
    calc (fmtL t).flatMap ampToAnd
        = (fmtL t).flatMap (fun c => [c]) := List.flatMap_congr this
      _ = fmtL t := List.flatMap_singleton' _
  have hfilter : (fmtL t).filter keepChar = fmtL t := List.filter_eq_self.mpr hkeep
  have hdef : fmtL (fmtL t)
      = (((fmtL t).map spaceToUnderscore).flatMap ampToAnd).filter keepChar := rfl
  rw [hdef, hmap, hflat, hfilter]

/-- C8: Filename sanitization is idempotent: for every string `x`,
`format_filename (format_filename x) = format_filename x`; in particular
`format_filename "Andaman & Nicobar" = "Andaman_and_Nicobar"`. -/
theorem format_filename_idempotent :
    (∀ x : String, format_filename (format_filename x) = format_filename x) ∧
      format_filename "Andaman & Nicobar" = "Andaman_and_Nicobar" := by
  constructor
  · intro x
    simp only [format_filename]
    have h1 : String.toList (String.mk (fmtL x.toList)) = fmtL x.toList := rfl
    rw [h1, fmtL_idem]
  · decide

theorem concatRows_eq (l : List FSEntry) :
    concatRows l = (l.map rowsOf).flatten := by
  have step : ∀ (acc : List String) (e : FSEntry),
      (match readRows e with | some r => acc ++ r | none => acc) = acc ++ rowsOf e := by
    intro acc e
    cases h : readRows e <;> simp [rowsOf, h]
  have gen : ∀ (l : List FSEntry) (init : List String),
      l.foldl (fun acc e => match readRows e with | some r => acc ++ r | none => acc) init
        = init ++ (l.map rowsOf).flatten := by
    intro l
    induction l with
    | nil => intro init; simp
    | cons a l ih =>
      intro init
      rw [List.foldl_cons, step init a, ih (init ++ rowsOf a)]
      simp [List.append_assoc]
  simpa using gen l []

theorem globStar_append (fs gs : List FSEntry) (dir pre suf : Name) :
    globStar (fs ++ gs) dir pre suf = globStar fs dir pre suf ++ globStar gs dir pre suf := by
  simp [globStar]

theorem insertAfterEq_perm (le : α → α → Bool) (a : α) (l : List α) :
    (insertAfterEq le a l).Perm (a :: l) := by
  induction l with
  | nil => simp [insertAfterEq]
  | cons b bs ih =>
    by_cases h : le b a = true
    · simp only [insertAfterEq, h, if_true]
      exact (ih.cons b).trans (List.Perm.swap a b bs)
    · simp [insertAfterEq, h]

theorem stableSort_perm (le : α → α → Bool) (l : List α) :
    (stableSort le l).Perm l := by
  have gen : ∀ (l : List α) (acc : List α),
      (l.foldl (fun acc a => insertAfterEq le a acc) acc).Perm (acc ++ l) := by
    intro l
    induction l with
    | nil => intro acc; simp
    | cons a l ih =>
      intro acc
      refine ((ih (insertAfterEq le a acc)).trans ?_)
      have h1 : (insertAfterEq le a acc ++ l).Perm ((a :: acc) ++ l) :=
        (insertAfterEq_perm le a acc).append_right l
      exact h1.trans List.perm_middle.symm
  simpa using gen l []

theorem mem_stableSort (le : α → α → Bool) (l : List α) (a : α) :
    a ∈ stableSort le l ↔ a ∈ l :=
  (stableSort_perm le l).mem_iff

theorem startsDot_cons (c : Char) (l : Name) (hc : c ≠ '.') :
    startsDot (c :: l) = false := by
  simp [startsDot, hc]

/-- Every character emitted by the sanitizer is alphanumeric or `_`, hence a
sanitized name followed by an underscore never starts with a dot. -/
theorem startsDot_fmtL_underscore (t : Name) (rest : Name) :
    startsDot (fmtL t ++ '_' :: rest) = false := by
  cases h : fmtL t with
  | nil => simp [h, startsDot]
  | cons c cs =>
    have hc : keepChar c = true := keepChar_of_mem_fmtL (h ▸ List.mem_cons_self c cs)
    have hne : c ≠ '.' := by
      intro he
      subst he
      simp [keepChar, Char.isAlphanum, Char.isAlpha, Char.isDigit,
        Char.isUpper, Char.isLower] at hc
    simp only [h, List.cons_append]
    exact startsDot_cons c _ hne

/-- `os.path.join(d, n)` is strictly longer than `d`, hence never equal to
it. -/
theorem joinP_ne (d n : Name) : joinP d n ≠ d := by
  intro h
  have := congrArg List.length h
  simp [joinP] at this


/-- The pattern prefix `{state}_{business}_page_` never matches the combined
output name `{state}_{business}_combined.csv`. -/
theorem queryPre_not_prefix_combinedName (s b : String) :
    ¬ (queryPre s (some b) <+: combinedName s (some b)) := by
  intro h
  have hq : queryPre s (some b)
      = (fmtS s ++ '_' :: fmtL b.toList) ++ "_page_".toList := by
    simp [queryPre]
  have hc : combinedName s (some b)
      = (fmtS s ++ '_' :: fmtL b.toList) ++ "_combined.csv".toList := by
    simp [combinedName, queryDirName]
  rw [hq, hc] at h
  exact absurd ((List.prefix_append_right_inj _).mp h) (by decide)

/-- Appending the business-filtered combined output to the listing does not
change what `combine_csv_files` matches, hence not its result. -/
theorem combine_business_ignores_own_output (fs : List FSEntry) (dl : Name)
    (s b : String) (e : FSEntry) (he : e.name = combinedName s (some b)) :
    combine_csv_files (fs ++ [e]) dl s (some b)
      = combine_csv_files fs dl s (some b) := by
  have hglob : globStar (fs ++ [e]) (queryDir dl s (some b)) (queryPre s (some b)) ".csv".toList
      = globStar fs (queryDir dl s (some b)) (queryPre s (some b)) ".csv".toList := by
    rw [globStar_append]
    have hnil : globStar [e] (queryDir dl s (some b)) (queryPre s (some b)) ".csv".toList = [] := by
      apply List.filter_eq_nil_iff.mpr
      intro a ha
      have : a = e := by simpa using ha
      subst this
      have hpre : (queryPre s (some b)).isPrefixOf a.name = false := by
        rw [he]
        exact Bool.eq_false_iff.mpr (fun hb =>
          queryPre_not_prefix_combinedName s b (List.isPrefixOf_iff_prefix.mp hb))
      simp [hpre]
    rw [hnil, List.append_nil]
  simp only [combine_csv_files, hglob]

/-- Appending the consolidated output file (a plain file under the download
root, with no directory of the same path) does not change the result of
`consolidate_state_files`. -/
theorem consolidate_ignores_own_output (fs : List FSEntry) (dl : Name)
    (s : String) (e : FSEntry) (hdir : e.dir = dl)
    (hname : e.name = consolidatedName s) (hfile : e.isDir = false)
    (hfresh : ∀ x ∈ fs, x.dir ≠ joinP dl e.name) :
    consolidate_state_files (fs ++ [e]) dl s
      = consolidate_state_files fs dl s := by
  -- the appended file does match the `{state}_*` folder pattern …
  have hmatch : stateFolders (fs ++ [e]) dl s = stateFolders fs dl s ++ [e] := by
    rw [stateFolders, globStar_append]
    congr 1
    have hn : e.name = fmtS s ++ '_' :: "consolidated.csv".toList := by
      simpa [consolidatedName] using hname
    have hpre : (fmtS s ++ ['_']).isPrefixOf e.name = true := by
      rw [List.isPrefixOf_iff_prefix, hn]
      have : fmtS s ++ '_' :: "consolidated.csv".toList
          = (fmtS s ++ ['_']) ++ "consolidated.csv".toList := by simp
      rw [this]
      exact List.prefix_append _ _
    have hsuf : (List.isSuffixOf [] e.name) = true := by
      simp [List.isSuffixOf]
    have hlen : (fmtS s ++ ['_']).length + ([] : Name).length ≤ e.name.length := by
      rw [hn]
      simp
    have hdot : startsDot e.name = false := by
      rw [hn]
      exact startsDot_fmtL_underscore _ _
    have h1 : fmtS s ++ ['_'] <+: e.name := List.isPrefixOf_iff_prefix.mp hpre
    have h2 : (fmtS s).length + 1 ≤ e.name.length := by simpa using hlen
    simp [globStar, hdir, hsuf, hdot, h1, h2]
  -- … but contributes no rows: it is not a directory, and nothing lies under
  -- the path `join(dl, e.name)`.
  have hchild_e : folderCombined (fs ++ [e]) dl e = [] := by
    apply List.filter_eq_nil_iff.mpr
    intro a ha
    rcases List.mem_append.mp ha with h | h
    · have := hfresh a h
      simp [this]
    · have : a = e := by simpa using h
      subst this
      have : a.dir ≠ joinP dl a.name := by
        rw [hdir]
        exact fun hh => joinP_ne dl a.name hh.symm
      simp [this]
  -- and the child scans of the pre-existing folders are unchanged.
  have hchild : ∀ folder : FSEntry, folderCombined (fs ++ [e]) dl folder
      = folderCombined fs dl folder ++ folderCombined [e] dl folder := by
    intro folder
    rw [folderCombined, folderCombined, folderCombined, globStar_append]
  have hchild_none : ∀ folder : FSEntry, folderCombined [e] dl folder
      = [] := by
    intro folder
    apply List.filter_eq_nil_iff.mpr
    intro a ha
    have : a = e := by simpa using ha
    subst this
    have : a.dir ≠ joinP dl folder.name := by
      rw [hdir]
      exact fun hh => joinP_ne dl folder.name hh.symm
    simp [this]
  have hchild' : ∀ folder : FSEntry, folderCombined (fs ++ [e]) dl folder
      = folderCombined fs dl folder := by
    intro folder
    rw [hchild folder, hchild_none folder, List.append_nil]
  simp only [consolidate_state_files, hmatch]
  have hfold : ∀ (l : List FSEntry) (init : List String),
      l.foldl (fun acc folder =>
          acc ++ concatRows (folderCombined (fs ++ [e]) dl folder)) init
        = l.foldl (fun acc folder =>
          acc ++ concatRows (folderCombined fs dl folder)) init := by
    intro l
    induction l with
    | nil => intro init; rfl
    | cons a l ih => intro init; simp only [List.foldl_cons, hchild', ih]
  have hchild_fs_e : folderCombined fs dl e = [] := by
    apply List.filter_eq_nil_iff.mpr
    intro a ha
    have := hfresh a ha
    simp [this]
  have hrows : (stateFolders fs dl s ++ [e]).foldl
      (fun acc folder => acc ++ concatRows (folderCombined (fs ++ [e]) dl folder)) []
        = (stateFolders fs dl s).foldl
      (fun acc folder => acc ++ concatRows (folderCombined fs dl folder)) [] := by
    rw [List.foldl_append]
    simp only [hfold]
    simp only [List.foldl_cons, List.foldl_nil, hchild_fs_e]
    simp [concatRows]
  rw [hrows]
  have hne : stateFolders fs dl s ++ [e] ≠ [] := by simp
  rw [if_neg hne]
  by_cases hf : stateFolders fs dl s = []
  · rw [hf]
    simp [concatRows]
  · rw [if_neg hf]

/-- C1 (counterexample): for an unfiltered query the operation is *not*
idempotent: the first run over one page file `Goa_1.csv` (one row `"r"`)
writes `Goa_combined.csv` with rows `["r"]`, and re-running with the inputs
unchanged — but the first run's output now present in the directory, where
it matches the glob pattern `Goa_*.csv` — writes `["r", "r"]` instead. -/
theorem combine_unfiltered_not_idempotent :
    combine_csv_files
        [⟨"dl/Goa".toList, "Goa_1.csv".toList, false, 0, some ["r"]⟩]
        "dl".toList "Goa" none
      = .ok (some ("Goa_combined.csv".toList, ["r"])) ∧
    combine_csv_files
        [⟨"dl/Goa".toList, "Goa_1.csv".toList, false, 0, some ["r"]⟩,
         ⟨"dl/Goa".toList, "Goa_combined.csv".toList, false, 5, some ["r"]⟩]
        "dl".toList "Goa" none
      = .ok (some ("Goa_combined.csv".toList, ["r", "r"])) := by
  exact ⟨rfl, rfl⟩

/-- C1 (amended): page-combine for a business-filtered query and
state-consolidate are idempotent given the same input set — re-running with
the first run's output file additionally present reproduces the identical
result — while unfiltered page-combine is not (its glob pattern matches its
own output; see the counterexample). -/
theorem combine_consolidate_idempotent_same_inputs :
    (∀ (fs : List FSEntry) (dl : Name) (s b : String) (e : FSEntry),
      e.name = combinedName s (some b) →
      combine_csv_files (fs ++ [e]) dl s (some b)
        = combine_csv_files fs dl s (some b)) ∧
    (∀ (fs : List FSEntry) (dl : Name) (s : String) (e : FSEntry),
      e.dir = dl → e.name = consolidatedName s → e.isDir = false →
      (∀ x ∈ fs, x.dir ≠ joinP dl e.name) →
      consolidate_state_files (fs ++ [e]) dl s
        = consolidate_state_files fs dl s) :=
  ⟨combine_business_ignores_own_output, consolidate_ignores_own_output⟩

/-- Witness for the amended C1 at concrete inputs. -/
theorem combine_consolidate_idempotent_same_inputs_witness :
    combine_csv_files
        ([⟨"dl/Gujarat_Trading".toList, "Gujarat_Trading_page_1.csv".toList,
            false, 0, some ["a"]⟩] ++
          [⟨"dl/Gujarat_Trading".toList, "Gujarat_Trading_combined.csv".toList,
            false, 9, some ["a"]⟩])
        "dl".toList "Gujarat" (some "Trading")
      = combine_csv_files
        [⟨"dl/Gujarat_Trading".toList, "Gujarat_Trading_page_1.csv".toList,
            false, 0, some ["a"]⟩]
        "dl".toList "Gujarat" (some "Trading") ∧
    consolidate_state_files
        ([⟨"dl".toList, "Gujarat_Trading".toList, true, 0, none⟩,
          ⟨"dl/Gujarat_Trading".toList, "Gujarat_Trading_combined.csv".toList,
            false, 3, some ["a"]⟩] ++
          [⟨"dl".toList, "Gujarat_consolidated.csv".toList, false, 7, some ["a"]⟩])
        "dl".toList "Gujarat"
      = consolidate_state_files
        [⟨"dl".toList, "Gujarat_Trading".toList, true, 0, none⟩,
         ⟨"dl/Gujarat_Trading".toList, "Gujarat_Trading_combined.csv".toList,
            false, 3, some ["a"]⟩]
        "dl".toList "Gujarat" :=
  ⟨combine_consolidate_idempotent_same_inputs.1 _ _ "Gujarat" "Trading" _ (by decide),
   combine_consolidate_idempotent_same_inputs.2 _ _ "Gujarat" _ rfl (by decide) rfl
     (by decide)⟩

/-- Unfolding of `combine_csv_files` for an unfiltered query. -/
theorem combine_none_eq (fs : List FSEntry) (dl : Name) (s : String) :
    combine_csv_files fs dl s none
      = (if concatRows (sortByMtime
            (globStar fs (queryDir dl s none) (queryPre s none) ".csv".toList)) = []
         then .ok none
         else .ok (some (combinedName s none, concatRows (sortByMtime
            (globStar fs (queryDir dl s none) (queryPre s none) ".csv".toList))))) := rfl

/-- Unfolding of `combine_csv_files` for a business-filtered query whose
sort keys all parse. -/
theorem combine_some_eq_of_all {fs : List FSEntry} {dl : Name} {s b : String}
    (hall : (globStar fs (queryDir dl s (some b)) (queryPre s (some b)) ".csv".toList).all
      (fun e => (entryKey (queryDir dl s (some b)) e).isSome) = true) :
    combine_csv_files fs dl s (some b)
      = (if concatRows (sortByPage (queryDir dl s (some b))
            (globStar fs (queryDir dl s (some b)) (queryPre s (some b)) ".csv".toList)) = []
         then .ok none
         else .ok (some (combinedName s (some b), concatRows (sortByPage (queryDir dl s (some b))
            (globStar fs (queryDir dl s (some b)) (queryPre s (some b)) ".csv".toList))))) := by
  simp only [combine_csv_files]
  rw [if_pos hall]

/-- Unfolding of `combine_csv_files` for a business-filtered query with an
unparseable sort key: the exception escapes (C10's concern). -/
theorem combine_some_eq_error {fs : List FSEntry} {dl : Name} {s b : String}
    (hall : ¬ (globStar fs (queryDir dl s (some b)) (queryPre s (some b)) ".csv".toList).all
      (fun e => (entryKey (queryDir dl s (some b)) e).isSome) = true) :
    combine_csv_files fs dl s (some b) = .error () := by
  simp only [combine_csv_files]
  rw [if_neg hall]

theorem rowsOf_eq_nil {e : FSEntry}
    (h : readRows e = none ∨ readRows e = some []) : rowsOf e = [] := by
  rcases h with h | h <;> simp [rowsOf, h]

theorem concatRows_eq_nil {l : List FSEntry}
    (h : ∀ e ∈ l, readRows e = none ∨ readRows e = some []) :
    concatRows l = [] := by
  rw [concatRows_eq]
  rw [List.flatten_eq_nil_iff]
  intro xs hxs
  rcases List.mem_map.mp hxs with ⟨e, he, rfl⟩
  exact rowsOf_eq_nil (h e he)

theorem foldl_append_const_nil {g : α → List β}
    (l : List α) (h : ∀ a ∈ l, g a = []) :
    ∀ init : List β, l.foldl (fun acc a => acc ++ g a) init = init := by
  induction l with
  | nil => intro init; rfl
  | cons a t ih =>
    intro init
    rw [List.foldl_cons, h a (List.mem_cons_self a t),
      List.append_nil]
    exact ih (fun x hx => h x (List.mem_cons_of_mem a hx)) init

/-- C3: when every matched input contributes zero rows (unreadable, or read
but empty), neither merge writes an output file. -/
theorem empty_input_writes_no_output :
    (∀ (fs : List FSEntry) (dl : Name) (s : String) (bt : Option String),
      (∀ e ∈ globStar fs (queryDir dl s bt) (queryPre s bt) ".csv".toList,
        readRows e = none ∨ readRows e = some []) →
      writtenFile (combine_csv_files fs dl s bt) = none) ∧
    (∀ (fs : List FSEntry) (dl : Name) (s : String),
      (∀ folder ∈ stateFolders fs dl s, ∀ e ∈ folderCombined fs dl folder,
        readRows e = none ∨ readRows e = some []) →
      consolidate_state_files fs dl s = none) := by
  constructor
  · intro fs dl s bt hempty
    rcases bt with _ | b
    · have hnil : concatRows (sortByMtime
          (globStar fs (queryDir dl s none) (queryPre s none) ".csv".toList)) = [] := by
        apply concatRows_eq_nil
        intro e he
        exact hempty e ((mem_stableSort _ _ e).mp he)
      rw [combine_none_eq, hnil]
      rfl
    · by_cases hall : (globStar fs (queryDir dl s (some b)) (queryPre s (some b))
          ".csv".toList).all
            (fun e => (entryKey (queryDir dl s (some b)) e).isSome) = true
      · have hnil : concatRows (sortByPage (queryDir dl s (some b))
            (globStar fs (queryDir dl s (some b)) (queryPre s (some b)) ".csv".toList)) = [] := by
          apply concatRows_eq_nil
          intro e he
          exact hempty e ((mem_stableSort _ _ e).mp he)
        rw [combine_some_eq_of_all hall, hnil]
        rfl
      · rw [combine_some_eq_error hall]
        rfl
  · intro fs dl s hempty
    by_cases hf : stateFolders fs dl s = []
    · simp [consolidate_state_files, hf]
    · have hnil : (stateFolders fs dl s).foldl
          (fun acc folder => acc ++ concatRows (folderCombined fs dl folder)) [] = [] := by
        apply foldl_append_const_nil
        intro folder hfolder
        exact concatRows_eq_nil (hempty folder hfolder)
      simp [consolidate_state_files, hf, hnil]

/-- Witness for C3 at a concrete input: one matched but empty page file for
the combine, and one matched folder holding one unreadable combined file for
the consolidate. -/
theorem empty_input_writes_no_output_witness :
    writtenFile (combine_csv_files
        [⟨"dl/Goa".toList, "Goa_x.csv".toList, false, 0, some []⟩]
        "dl".toList "Goa" none) = none ∧
    consolidate_state_files
        [⟨"dl".toList, "Goa_Fin".toList, true, 0, none⟩,
         ⟨"dl/Goa_Fin".toList, "Goa_Fin_combined.csv".toList, false, 0, none⟩]
        "dl".toList "Goa" = none :=
  ⟨empty_input_writes_no_output.1 _ _ "Goa" none (by decide),
   empty_input_writes_no_output.2 _ _ "Goa" (by decide)⟩


set_option maxHeartbeats 4000000 in
/-- C7: a single unreadable input file contributes nothing and never aborts a
merge: removing it from the concatenation loop's input changes nothing (first
conjunct), and concretely, five inputs of which the third raises on read
yield exactly the four valid files' rows — for business-filtered page-combine,
unfiltered page-combine, and state-consolidate. -/
theorem read_failure_isolated :
    (∀ (l₁ l₂ : List FSEntry) (bad : FSEntry), readRows bad = none →
      concatRows (l₁ ++ bad :: l₂) = concatRows (l₁ ++ l₂)) ∧
    (∀ r1 r2 r4 r5 : List String, ((r1 ++ r2) ++ r4) ++ r5 ≠ [] →
      combine_csv_files
        [⟨"dl/Gujarat_Trading".toList, "Gujarat_Trading_page_1.csv".toList, false, 0, some r1⟩,
         ⟨"dl/Gujarat_Trading".toList, "Gujarat_Trading_page_2.csv".toList, false, 0, some r2⟩,
         ⟨"dl/Gujarat_Trading".toList, "Gujarat_Trading_page_3.csv".toList, false, 0, none⟩,
         ⟨"dl/Gujarat_Trading".toList, "Gujarat_Trading_page_4.csv".toList, false, 0, some r4⟩,
         ⟨"dl/Gujarat_Trading".toList, "Gujarat_Trading_page_5.csv".toList, false, 0, some r5⟩]
        "dl".toList "Gujarat" (some "Trading")
      = .ok (some ("Gujarat_Trading_combined.csv".toList, ((r1 ++ r2) ++ r4) ++ r5))) ∧
    (∀ r1 r2 r4 r5 : List String, ((r1 ++ r2) ++ r4) ++ r5 ≠ [] →
      combine_csv_files
        [⟨"dl/Goa".toList, "Goa_a.csv".toList, false, 50, some r1⟩,
         ⟨"dl/Goa".toList, "Goa_b.csv".toList, false, 40, some r2⟩,
         ⟨"dl/Goa".toList, "Goa_c.csv".toList, false, 30, none⟩,
         ⟨"dl/Goa".toList, "Goa_d.csv".toList, false, 20, some r4⟩,
         ⟨"dl/Goa".toList, "Goa_e.csv".toList, false, 10, some r5⟩]
        "dl".toList "Goa" none
      = .ok (some ("Goa_combined.csv".toList, ((r1 ++ r2) ++ r4) ++ r5))) ∧
    (∀ r1 r2 r4 r5 : List String, ((r1 ++ r2) ++ r4) ++ r5 ≠ [] →
      consolidate_state_files
        [⟨"dl".toList, "Goa_F".toList, true, 0, none⟩,
         ⟨"dl/Goa_F".toList, "a_combined.csv".toList, false, 0, some r1⟩,
         ⟨"dl/Goa_F".toList, "b_combined.csv".toList, false, 0, some r2⟩,
         ⟨"dl/Goa_F".toList, "c_combined.csv".toList, false, 0, none⟩,
         ⟨"dl/Goa_F".toList, "d_combined.csv".toList, false, 0, some r4⟩,
         ⟨"dl/Goa_F".toList, "e_combined.csv".toList, false, 0, some r5⟩]
        "dl".toList "Goa"
      = some ("Goa_consolidated.csv".toList, ((r1 ++ r2) ++ r4) ++ r5)) := by
  refine ⟨?_, ?_, ?_, ?_⟩
  · intro l₁ l₂ bad hbad
    have hb : rowsOf bad = [] := by simp [rowsOf, hbad]
    simp [concatRows_eq, hb]
  · intro r1 r2 r4 r5 hne
    have h0 : combine_csv_files
        [⟨"dl/Gujarat_Trading".toList, "Gujarat_Trading_page_1.csv".toList, false, 0, some r1⟩,
         ⟨"dl/Gujarat_Trading".toList, "Gujarat_Trading_page_2.csv".toList, false, 0, some r2⟩,
         ⟨"dl/Gujarat_Trading".toList, "Gujarat_Trading_page_3.csv".toList, false, 0, none⟩,
         ⟨"dl/Gujarat_Trading".toList, "Gujarat_Trading_page_4.csv".toList, false, 0, some r4⟩,
         ⟨"dl/Gujarat_Trading".toList, "Gujarat_Trading_page_5.csv".toList, false, 0, some r5⟩]
        "dl".toList "Gujarat" (some "Trading")
        = (if ((r1 ++ r2) ++ r4) ++ r5 = [] then Except.ok none
           else Except.ok (some ("Gujarat_Trading_combined.csv".toList,
             ((r1 ++ r2) ++ r4) ++ r5))) := rfl
    rw [h0, if_neg hne]
  · intro r1 r2 r4 r5 hne
    have h0 : combine_csv_files
        [⟨"dl/Goa".toList, "Goa_a.csv".toList, false, 50, some r1⟩,
         ⟨"dl/Goa".toList, "Goa_b.csv".toList, false, 40, some r2⟩,
         ⟨"dl/Goa".toList, "Goa_c.csv".toList, false, 30, none⟩,
         ⟨"dl/Goa".toList, "Goa_d.csv".toList, false, 20, some r4⟩,
         ⟨"dl/Goa".toList, "Goa_e.csv".toList, false, 10, some r5⟩]
        "dl".toList "Goa" none
        = (if ((r1 ++ r2) ++ r4) ++ r5 = [] then Except.ok none
           else Except.ok (some ("Goa_combined.csv".toList,
             ((r1 ++ r2) ++ r4) ++ r5))) := rfl
    rw [h0, if_neg hne]
  · intro r1 r2 r4 r5 hne
    have h0 : consolidate_state_files
        [⟨"dl".toList, "Goa_F".toList, true, 0, none⟩,
         ⟨"dl/Goa_F".toList, "a_combined.csv".toList, false, 0, some r1⟩,
         ⟨"dl/Goa_F".toList, "b_combined.csv".toList, false, 0, some r2⟩,
         ⟨"dl/Goa_F".toList, "c_combined.csv".toList, false, 0, none⟩,
         ⟨"dl/Goa_F".toList, "d_combined.csv".toList, false, 0, some r4⟩,
         ⟨"dl/Goa_F".toList, "e_combined.csv".toList, false, 0, some r5⟩]
        "dl".toList "Goa"
        = (if ((r1 ++ r2) ++ r4) ++ r5 = [] then none
           else some ("Goa_consolidated.csv".toList,
             ((r1 ++ r2) ++ r4) ++ r5)) := rfl
    rw [h0, if_neg hne]

set_option maxHeartbeats 4000000 in
/-- Witness for C7 at concrete rows. -/
theorem read_failure_isolated_witness :
    concatRows ([] ++ ⟨"d".toList, "x.csv".toList, false, 0, none⟩ :: [])
      = concatRows ([] ++ []) ∧
    combine_csv_files
        [⟨"dl/Gujarat_Trading".toList, "Gujarat_Trading_page_1.csv".toList, false, 0, some ["p1"]⟩,
         ⟨"dl/Gujarat_Trading".toList, "Gujarat_Trading_page_2.csv".toList, false, 0, some ["p2"]⟩,
         ⟨"dl/Gujarat_Trading".toList, "Gujarat_Trading_page_3.csv".toList, false, 0, none⟩,
         ⟨"dl/Gujarat_Trading".toList, "Gujarat_Trading_page_4.csv".toList, false, 0, some ["p4"]⟩,
         ⟨"dl/Gujarat_Trading".toList, "Gujarat_Trading_page_5.csv".toList, false, 0, some ["p5"]⟩]
        "dl".toList "Gujarat" (some "Trading")
      = .ok (some ("Gujarat_Trading_combined.csv".toList,
          (((["p1"] ++ ["p2"]) ++ ["p4"]) ++ ["p5"]))) ∧
    combine_csv_files
        [⟨"dl/Goa".toList, "Goa_a.csv".toList, false, 50, some ["u1"]⟩,
         ⟨"dl/Goa".toList, "Goa_b.csv".toList, false, 40, some ["u2"]⟩,
         ⟨"dl/Goa".toList, "Goa_c.csv".toList, false, 30, none⟩,
         ⟨"dl/Goa".toList, "Goa_d.csv".toList, false, 20, some ["u4"]⟩,
         ⟨"dl/Goa".toList, "Goa_e.csv".toList, false, 10, some ["u5"]⟩]
        "dl".toList "Goa" none
      = .ok (some ("Goa_combined.csv".toList,
          (((["u1"] ++ ["u2"]) ++ ["u4"]) ++ ["u5"]))) ∧
    consolidate_state_files
        [⟨"dl".toList, "Goa_F".toList, true, 0, none⟩,
         ⟨"dl/Goa_F".toList, "a_combined.csv".toList, false, 0, some ["c1"]⟩,
         ⟨"dl/Goa_F".toList, "b_combined.csv".toList, false, 0, some ["c2"]⟩,
         ⟨"dl/Goa_F".toList, "c_combined.csv".toList, false, 0, none⟩,
         ⟨"dl/Goa_F".toList, "d_combined.csv".toList, false, 0, some ["c4"]⟩,
         ⟨"dl/Goa_F".toList, "e_combined.csv".toList, false, 0, some ["c5"]⟩]
        "dl".toList "Goa"
      = some ("Goa_consolidated.csv".toList,
          (((["c1"] ++ ["c2"]) ++ ["c4"]) ++ ["c5"])) :=
  ⟨read_failure_isolated.1 [] [] _ rfl,
   read_failure_isolated.2.1 ["p1"] ["p2"] ["p4"] ["p5"] (by decide),
   read_failure_isolated.2.2.1 ["u1"] ["u2"] ["u4"] ["u5"] (by decide),
   read_failure_isolated.2.2.2 ["c1"] ["c2"] ["c4"] ["c5"] (by decide)⟩


set_option maxHeartbeats 4000000 in
/-- C2: with businessType set, output row blocks follow ascending page
number — artifacts listed for pages [3,1,2] (whatever their mtimes) come out
as blocks [1,2,3]; with businessType absent, output row blocks follow
capture recency, most recent first — for mtimes `t1 < t2` the `t2` file's
rows precede the `t1` file's rows. -/
theorem combine_ordering :
    (∀ r1 r2 r3 : List String, (r1 ++ r2) ++ r3 ≠ [] →
      combine_csv_files
        [⟨"dl/Gujarat_Trading".toList, "Gujarat_Trading_page_3.csv".toList, false, 10, some r3⟩,
         ⟨"dl/Gujarat_Trading".toList, "Gujarat_Trading_page_1.csv".toList, false, 30, some r1⟩,
         ⟨"dl/Gujarat_Trading".toList, "Gujarat_Trading_page_2.csv".toList, false, 20, some r2⟩]
        "dl".toList "Gujarat" (some "Trading")
      = .ok (some ("Gujarat_Trading_combined.csv".toList, (r1 ++ r2) ++ r3))) ∧
    (∀ (t1 t2 : Nat) (r1 r2 : List String), t1 < t2 → r2 ++ r1 ≠ [] →
      combine_csv_files
        [⟨"dl/Goa".toList, "Goa_a.csv".toList, false, t1, some r1⟩,
         ⟨"dl/Goa".toList, "Goa_b.csv".toList, false, t2, some r2⟩]
        "dl".toList "Goa" none
      = .ok (some ("Goa_combined.csv".toList, r2 ++ r1))) := by
  constructor
  · intro r1 r2 r3 hne
    have h0 : combine_csv_files
        [⟨"dl/Gujarat_Trading".toList, "Gujarat_Trading_page_3.csv".toList, false, 10, some r3⟩,
         ⟨"dl/Gujarat_Trading".toList, "Gujarat_Trading_page_1.csv".toList, false, 30, some r1⟩,
         ⟨"dl/Gujarat_Trading".toList, "Gujarat_Trading_page_2.csv".toList, false, 20, some r2⟩]
        "dl".toList "Gujarat" (some "Trading")
        = (if (r1 ++ r2) ++ r3 = [] then Except.ok none
           else Except.ok (some ("Gujarat_Trading_combined.csv".toList, (r1 ++ r2) ++ r3))) := rfl
    rw [h0, if_neg hne]
  · intro t1 t2 r1 r2 ht hne
    rw [combine_none_eq]
    have hglob : globStar
        [⟨"dl/Goa".toList, "Goa_a.csv".toList, false, t1, some r1⟩,
         ⟨"dl/Goa".toList, "Goa_b.csv".toList, false, t2, some r2⟩]
        (queryDir "dl".toList "Goa" none) (queryPre "Goa" none) ".csv".toList
        = [⟨"dl/Goa".toList, "Goa_a.csv".toList, false, t1, some r1⟩,
           ⟨"dl/Goa".toList, "Goa_b.csv".toList, false, t2, some r2⟩] := rfl
    rw [hglob]
    have hdec : decide (t2 ≤ t1) = false := decide_eq_false (Nat.not_le.mpr ht)
    have hsort : sortByMtime
        [⟨"dl/Goa".toList, "Goa_a.csv".toList, false, t1, some r1⟩,
         ⟨"dl/Goa".toList, "Goa_b.csv".toList, false, t2, some r2⟩]
        = [⟨"dl/Goa".toList, "Goa_b.csv".toList, false, t2, some r2⟩,
           ⟨"dl/Goa".toList, "Goa_a.csv".toList, false, t1, some r1⟩] := by
      simp only [sortByMtime, stableSort, List.foldl, insertAfterEq, hdec]
      rw [if_neg]
      simp [hdec]
    rw [hsort]
    have hrows : concatRows
        [⟨"dl/Goa".toList, "Goa_b.csv".toList, false, t2, some r2⟩,
         ⟨"dl/Goa".toList, "Goa_a.csv".toList, false, t1, some r1⟩] = r2 ++ r1 := by
      simp [concatRows, readRows]
    rw [hrows, if_neg hne]
    rfl

set_option maxHeartbeats 4000000 in
/-- Witness for C2 at concrete rows and times. -/
theorem combine_ordering_witness :
    combine_csv_files
        [⟨"dl/Gujarat_Trading".toList, "Gujarat_Trading_page_3.csv".toList, false, 10, some ["p3"]⟩,
         ⟨"dl/Gujarat_Trading".toList, "Gujarat_Trading_page_1.csv".toList, false, 30, some ["p1"]⟩,
         ⟨"dl/Gujarat_Trading".toList, "Gujarat_Trading_page_2.csv".toList, false, 20, some ["p2"]⟩]
        "dl".toList "Gujarat" (some "Trading")
      = .ok (some ("Gujarat_Trading_combined.csv".toList, ((["p1"] ++ ["p2"]) ++ ["p3"]))) ∧
    combine_csv_files
        [⟨"dl/Goa".toList, "Goa_a.csv".toList, false, 100, some ["old"]⟩,
         ⟨"dl/Goa".toList, "Goa_b.csv".toList, false, 200, some ["new"]⟩]
        "dl".toList "Goa" none
      = .ok (some ("Goa_combined.csv".toList, ["new"] ++ ["old"])) :=
  ⟨combine_ordering.1 ["p1"] ["p2"] ["p3"] (by decide),
   combine_ordering.2 100 200 ["old"] ["new"] (by decide) (by decide)⟩


/-- `os.path.join(d, ·)` is injective in the entry name. -/
theorem joinP_inj_right {d n₁ n₂ : Name} (h : joinP d n₁ = joinP d n₂) :
    n₁ = n₂ := by
  have := List.append_cancel_left h
  simpa using this

/-- C4: a subdirectory matching the `{state}_*` pattern that contains no
`*_combined.csv` file (only raw page files, or nothing) contributes exactly
zero rows: consolidating with the subdirectory and its raw files present
equals consolidating without them. -/
theorem consolidate_reads_only_combined :
    ∀ (fs : List FSEntry) (dl : Name) (s : String) (F : FSEntry)
      (raws : List FSEntry),
      F.dir = dl →
      (fmtS s ++ ['_']) <+: F.name →
      (∀ e ∈ raws, e.dir = joinP dl F.name) →
      (∀ e ∈ fs ++ raws, e.dir = joinP dl F.name →
        ¬ ("_combined.csv".toList <:+ e.name)) →
      consolidate_state_files (fs ++ F :: raws) dl s
        = consolidate_state_files fs dl s := by
  intro fs dl s F raws hFdir hFpre hraws hnocomb
  have hrest : ∀ e ∈ raws, ¬ (e.dir = dl) := by
    intro e he h
    exact joinP_ne dl F.name ((hraws e he).symm.trans h)
  have hfolders : stateFolders (fs ++ F :: raws) dl s
      = stateFolders fs dl s ++ [F] := by
    rw [stateFolders, globStar_append]
    congr 1
    have hFname : ∃ t, F.name = fmtS s ++ '_' :: t := by
      rcases hFpre with ⟨t, ht⟩
      exact ⟨t, by simp [← ht]⟩
    rcases hFname with ⟨t, ht⟩
    have hpre : (fmtS s ++ ['_']).isPrefixOf F.name = true :=
      List.isPrefixOf_iff_prefix.mpr hFpre
    have hlen : (fmtS s ++ ['_']).length + ([] : Name).length ≤ F.name.length := by
      simpa using hFpre.length_le
    have hdot : startsDot F.name = false := by
      rw [ht]
      exact startsDot_fmtL_underscore _ _
    have hF : fmtS s ++ ['_'] <+: F.name := hFpre
    have hlen' : (fmtS s).length + 1 ≤ F.name.length := by simpa using hlen
    have : List.filter (fun e =>
        decide (e.dir = dl) && (fmtS s ++ ['_']).isPrefixOf e.name &&
          List.isSuffixOf [] e.name &&
          decide ((fmtS s ++ ['_']).length + ([] : Name).length ≤ e.name.length) &&
          (!startsDot e.name || startsDot (fmtS s ++ ['_']))) (F :: raws)
        = [F] := by
      rw [List.filter_cons]
      have hFp : (decide (F.dir = dl) && (fmtS s ++ ['_']).isPrefixOf F.name &&
          List.isSuffixOf [] F.name &&
          decide ((fmtS s ++ ['_']).length + ([] : Name).length ≤ F.name.length) &&
          (!startsDot F.name || startsDot (fmtS s ++ ['_']))) = true := by
        simp [hFdir, hpre, hdot, List.isSuffixOf, hlen']
      rw [if_pos hFp]
      have hfr : List.filter (fun e =>
          decide (e.dir = dl) && (fmtS s ++ ['_']).isPrefixOf e.name &&
            List.isSuffixOf [] e.name &&
            decide ((fmtS s ++ ['_']).length + ([] : Name).length ≤ e.name.length) &&
            (!startsDot e.name || startsDot (fmtS s ++ ['_']))) raws
          = ([] : List FSEntry) := List.filter_eq_nil_iff.mpr
        (by
          intro a ha
          have := hrest a ha
          simp [this])
      rw [hfr]
    exact this
  have hchild_rest : ∀ G : FSEntry, folderCombined (F :: raws) dl G = [] := by
    intro G
    apply List.filter_eq_nil_iff.mpr
    intro a ha
    rcases List.mem_cons.mp ha with rfl | ha
    · have : ¬ (a.dir = joinP dl G.name) := by
        rw [hFdir]
        exact fun hh => joinP_ne dl G.name hh.symm
      simp [this]
    · by_cases hdir : a.dir = joinP dl G.name
      · have hFG : F.name = G.name := joinP_inj_right ((hraws a ha).symm.trans hdir)
        have hsuf : ¬ ("_combined.csv".toList <:+ a.name) := by
          apply hnocomb a (List.mem_append.mpr (Or.inr ha))
          rw [hraws a ha, hFG]
        have hsuf2 : ¬ (['_', 'c', 'o', 'm', 'b', 'i', 'n', 'e', 'd', '.', 'c', 's', 'v']
            <:+ a.name) := hsuf
        simp [hsuf2]
      · simp [hdir]
  have hchildF : folderCombined (fs ++ F :: raws) dl F = [] := by
    rw [folderCombined, globStar_append]
    have h1 : globStar fs (joinP dl F.name) [] "_combined.csv".toList = [] := by
      apply List.filter_eq_nil_iff.mpr
      intro a ha
      by_cases hdir : a.dir = joinP dl F.name
      · have hsuf : ¬ ("_combined.csv".toList <:+ a.name) :=
          hnocomb a (List.mem_append.mpr (Or.inl ha)) hdir
        have hsuf2 : ¬ (['_', 'c', 'o', 'm', 'b', 'i', 'n', 'e', 'd', '.', 'c', 's', 'v']
            <:+ a.name) := hsuf
        simp [hsuf2]
      · simp [hdir]
    rw [h1]
    have h2 := hchild_rest F
    rw [folderCombined] at h2
    rw [h2]
    rfl
  have hchildG : ∀ G : FSEntry, folderCombined (fs ++ F :: raws) dl G
      = folderCombined fs dl G := by
    intro G
    rw [folderCombined, globStar_append]
    have h2 := hchild_rest G
    rw [folderCombined] at h2
    rw [h2, List.append_nil]
    rfl
  simp only [consolidate_state_files, hfolders]
  have hfold : ∀ (l : List FSEntry) (init : List String),
      l.foldl (fun acc folder =>
          acc ++ concatRows (folderCombined (fs ++ F :: raws) dl folder)) init
        = l.foldl (fun acc folder =>
          acc ++ concatRows (folderCombined fs dl folder)) init := by
    intro l
    induction l with
    | nil => intro init; rfl
    | cons a l ih => intro init; simp only [List.foldl_cons, hchildG, ih]
  have hrows : (stateFolders fs dl s ++ [F]).foldl
      (fun acc folder => acc ++ concatRows (folderCombined (fs ++ F :: raws) dl folder)) []
        = (stateFolders fs dl s).foldl
      (fun acc folder => acc ++ concatRows (folderCombined fs dl folder)) [] := by
    rw [List.foldl_append]
    simp only [List.foldl_cons, List.foldl_nil, hchildF]
    simp only [hfold]
    simp [concatRows]
  rw [hrows]
  have hne : stateFolders fs dl s ++ [F] ≠ [] := by simp
  rw [if_neg hne]
  by_cases hf : stateFolders fs dl s = []
  · rw [hf]
    simp [concatRows]
  · rw [if_neg hf]

/-- Witness for C4: a folder `Goa_F` holding only a raw page file
`Goa_F_page_1.csv` contributes nothing to consolidation next to a folder
`Goa_G` holding a combined file. -/
theorem consolidate_reads_only_combined_witness :
    consolidate_state_files
        ([⟨"dl".toList, "Goa_G".toList, true, 0, none⟩,
          ⟨"dl/Goa_G".toList, "Goa_G_combined.csv".toList, false, 0, some ["g"]⟩] ++
          ⟨"dl".toList, "Goa_F".toList, true, 0, none⟩ ::
            [⟨"dl/Goa_F".toList, "Goa_F_page_1.csv".toList, false, 0, some ["raw"]⟩])
        "dl".toList "Goa"
      = consolidate_state_files
        [⟨"dl".toList, "Goa_G".toList, true, 0, none⟩,
         ⟨"dl/Goa_G".toList, "Goa_G_combined.csv".toList, false, 0, some ["g"]⟩]
        "dl".toList "Goa" :=
  consolidate_reads_only_combined _ _ "Goa" _ _ rfl (by decide) (by decide) (by decide)


theorem splitOnAux_ne_nil (sep : Name) :
    ∀ (fuel : Nat) (s acc : Name), splitOnAux sep fuel s acc ≠ [] := by
  intro fuel
  induction fuel with
  | zero =>
    intro s acc
    cases s <;> simp [splitOnAux]
  | succ fuel ih =>
    intro s acc
    cases s with
    | nil => simp [splitOnAux]
    | cons c rest =>
      rw [splitOnAux]
      by_cases h : sep.isPrefixOf (c :: rest) = true
      · rw [if_pos h]
        simp
      · rw [if_neg h]
        exact ih rest (c :: acc)

/-- When the separator occurs nowhere in `s`, the scan returns a single
segment. -/
theorem splitOnAux_no_occurrence (sep : Name) :
    ∀ (fuel : Nat) (s acc : Name), ¬ (sep <:+: s) →
      splitOnAux sep fuel s acc = [acc.reverse ++ s] := by
  intro fuel
  induction fuel with
  | zero =>
    intro s acc _
    cases s <;> simp [splitOnAux]
  | succ fuel ih =>
    intro s acc hs
    cases s with
    | nil => simp [splitOnAux]
    | cons c rest =>
      rw [splitOnAux]
      have hpre : ¬ sep.isPrefixOf (c :: rest) = true := by
        intro hb
        exact hs (List.isPrefixOf_iff_prefix.mp hb).isInfix
      rw [if_neg hpre]
      have hrest : ¬ (sep <:+: rest) := fun h => hs (List.infix_cons h)
      rw [ih rest (c :: acc) hrest]
      simp

/-- The scan never reaches its fuel floor when started with enough fuel, so
the head of `"page_"` cannot be a proper nontrivial border of itself: no
proper nonempty prefix of `"page_"` is also one of its suffixes. -/
theorem pageSep_no_border :
    ∀ k : Nat, k < 5 → 0 < k → ¬ (("page_".toList).drop k <+: "page_".toList) := by
  decide

/-- Helper: the first character of `"page_" ++ t` matches immediately. -/
theorem splitOnAux_head_match (t acc : Name) (d : Name) (fuel : Nat)
    (ht : ¬ ("page_".toList <:+: t)) :
    (splitOnAux "page_".toList (fuel + 1) ("page_".toList ++ t) acc).getLastD d = t := by
  have hshape : "page_".toList ++ t = 'p' :: ("age_".toList ++ t) := rfl
  rw [hshape, splitOnAux]
  have hpre : ("page_".toList).isPrefixOf ('p' :: ("age_".toList ++ t)) = true := by
    rw [List.isPrefixOf_iff_prefix]
    exact ⟨t, rfl⟩
  rw [if_pos hpre]
  have hdrop : ("age_".toList ++ t).drop ("page_".toList.length - 1) = t := by
    have : ("page_".toList.length - 1) = ("age_".toList).length := rfl
    rw [this, List.drop_left]
  rw [hdrop, splitOnAux_no_occurrence "page_".toList fuel t [] ht]
  simp

/-- Core lemma: the last segment of the `"page_"`-split of
`p ++ "page_" ++ t` is exactly `t`, for any prefix `p`, provided `"page_"`
does not occur in `t`. -/
theorem splitOnAux_lastSeg :
    ∀ (n : Nat) (p t acc d : Name) (fuel : Nat), p.length ≤ n →
      (p ++ ("page_".toList ++ t)).length ≤ fuel →
      ¬ ("page_".toList <:+: t) →
      (splitOnAux "page_".toList fuel (p ++ ("page_".toList ++ t)) acc).getLastD d
        = t := by
  intro n
  induction n with
  | zero =>
    intro p t acc d fuel hp hfuel ht
    have hp0 : p = [] := List.length_eq_zero.mp (Nat.le_zero.mp hp)
    subst hp0
    rcases fuel with _ | fuel
    · exfalso
      simp at hfuel
    · simpa using splitOnAux_head_match t acc d fuel ht
  | succ n ih =>
    intro p t acc d fuel hp hfuel ht
    cases p with
    | nil =>
      rcases fuel with _ | fuel
      · exfalso
        simp at hfuel
      · simpa using splitOnAux_head_match t acc d fuel ht
    | cons c p' =>
      rcases fuel with _ | fuel
      · exfalso
        simp at hfuel
      · have hs : (c :: p') ++ ("page_".toList ++ t)
            = c :: (p' ++ ("page_".toList ++ t)) := rfl
        rw [hs, splitOnAux]
        by_cases hpre : ("page_".toList).isPrefixOf
            (c :: (p' ++ ("page_".toList ++ t))) = true
        · rw [if_pos hpre]
          have hprefix : "page_".toList <+: (c :: p') ++ ("page_".toList ++ t) :=
            List.isPrefixOf_iff_prefix.mp hpre
          by_cases hlen5 : 5 ≤ (c :: p').length
          · -- the matched occurrence lies inside `p`
            have hpp : (c :: p') <+: (c :: p') ++ ("page_".toList ++ t) :=
              List.prefix_append _ _
            have hsepp : "page_".toList <+: (c :: p') :=
              List.prefix_of_prefix_length_le hprefix hpp (by simpa using hlen5)
            rcases hsepp with ⟨p₂, hp₂⟩
            have hp'eq : p' = "age_".toList ++ p₂ := by
              have : 'p' :: ("age_".toList ++ p₂) = c :: p' := by
                simpa using hp₂
              injection this with _ h2
              exact h2.symm
            have hdrop : (p' ++ ("page_".toList ++ t)).drop
                ("page_".toList.length - 1) = p₂ ++ ("page_".toList ++ t) := by
              rw [hp'eq]
              have h4 : ("page_".toList.length - 1) = ("age_".toList).length := rfl
              rw [h4, List.append_assoc, List.drop_left]
            rw [hdrop]
            rw [List.getLastD_cons]
            have hplen := congrArg List.length hp₂
            simp at hplen
            have hp2 := hp
            simp only [List.length_cons] at hp2
            apply ih p₂ t [] acc.reverse fuel
            · omega
            · have h1 : ((c :: p') ++ ("page_".toList ++ t)).length ≤ fuel + 1 := hfuel
              simp only [List.length_append, List.length_cons] at h1 ⊢
              have hsl : ("page_".toList).length = 5 := rfl
              omega
            · exact ht
          · -- the matched occurrence would straddle `p` and `"page_"`:
            -- impossible because `"page_"` has no nontrivial border
            exfalso
            have hsl : ("page_".toList).length = 5 := rfl
            have hb : (c :: p').length = p'.length + 1 := by simp
            have hpp : (c :: p') <+: (c :: p') ++ ("page_".toList ++ t) :=
              List.prefix_append _ _
            have hps : (c :: p') <+: "page_".toList :=
              List.prefix_of_prefix_length_le hpp hprefix (by omega)
            rcases hps with ⟨q, hq⟩
            have hqlen : (c :: p').length + q.length = 5 := by
              have h := congrArg List.length hq
              rw [List.length_append, hsl] at h
              exact h
            have hqdrop : q = ("page_".toList).drop (c :: p').length := by
              rw [← hq, List.drop_left]
            have hqpre : q <+: "page_".toList ++ t := by
              rcases hprefix with ⟨r, hr⟩
              refine ⟨r, ?_⟩
              have hcat : (c :: p') ++ (q ++ r) = (c :: p') ++ ("page_".toList ++ t) := by
                rw [← List.append_assoc, hq, hr]
              exact List.append_cancel_left hcat
            have hqsep : q <+: "page_".toList :=
              List.prefix_of_prefix_length_le hqpre (List.prefix_append _ _) (by omega)
            rw [hqdrop] at hqsep
            exact pageSep_no_border (c :: p').length (by omega) (by omega) hqsep
        · rw [if_neg hpre]
          have hp2 := hp
          simp only [List.length_cons] at hp2
          apply ih p' t (c :: acc) d fuel
          · omega
          · have h1 : ((c :: p') ++ ("page_".toList ++ t)).length ≤ fuel + 1 := hfuel
            simp only [List.length_append, List.length_cons] at h1 ⊢
            omega
          · exact ht

/-- `x.split('page_')[-1]` on `p ++ "page_" ++ t` is `t` whenever `"page_"`
does not occur in `t`. -/
theorem lastSeg_pageSep (p t : Name) (ht : ¬ ("page_".toList <:+: t)) :
    lastSeg "page_".toList (p ++ ("page_".toList ++ t)) = t := by
  rw [lastSeg, splitOnL]
  exact splitOnAux_lastSeg p.length p t [] [] _ le_rfl le_rfl ht

/-- `x.split('.')[0]` on `u ++ "." ++ v` is `u` when `u` has no dot. -/
theorem splitOnAux_firstSeg_dot :
    ∀ (u : Name), '.' ∉ u → ∀ (v acc : Name) (fuel : Nat) (d : Name),
      (u ++ '.' :: v).length ≤ fuel →
      (splitOnAux ['.'] fuel (u ++ '.' :: v) acc).headD d = acc.reverse ++ u := by
  intro u
  induction u with
  | nil =>
    intro _ v acc fuel d hfuel
    rcases fuel with _ | fuel
    · exfalso
      simp at hfuel
    · rw [List.nil_append, splitOnAux]
      have hpre : (['.'] : Name).isPrefixOf ('.' :: v) = true := by
        rw [List.isPrefixOf_iff_prefix]
        exact ⟨v, rfl⟩
      rw [if_pos hpre]
      simp
  | cons c u' ih =>
    intro hdot v acc fuel d hfuel
    rcases fuel with _ | fuel
    · exfalso
      simp at hfuel
    · have hs : (c :: u') ++ '.' :: v = c :: (u' ++ '.' :: v) := rfl
      rw [hs, splitOnAux]
      have hc : c ≠ '.' := fun h => hdot (h ▸ List.mem_cons_self c u')
      have hpre : ¬ (['.'] : Name).isPrefixOf (c :: (u' ++ '.' :: v)) = true := by
        intro hb
        rcases List.isPrefixOf_iff_prefix.mp hb with ⟨r, hr⟩
        exact hc (by injection hr with h1 _; exact h1.symm)
      rw [if_neg hpre]
      have hdot' : '.' ∉ u' := fun h => hdot (List.mem_cons_of_mem c h)
      have hfuel' : (u' ++ '.' :: v).length ≤ fuel := by
        simp only [List.length_append, List.length_cons] at hfuel ⊢
        omega
      rw [ih hdot' v (c :: acc) fuel d hfuel']
      simp

theorem firstSeg_dot (u v : Name) (hdot : '.' ∉ u) :
    firstSeg ['.'] (u ++ '.' :: v) = u := by
  rw [firstSeg, splitOnL]
  simpa using splitOnAux_firstSeg_dot u hdot v [] (u ++ '.' :: v).length [] le_rfl


theorem digitChar10_facts (d : Nat) (hd : d < 10) :
    (digitChar10 d).isDigit = true ∧ pySpace (digitChar10 d) = false ∧
      digitChar10 d ≠ '_' ∧ digitChar10 d ≠ '.' ∧ digitChar10 d ≠ 'g' ∧
      (digitChar10 d).toNat - 48 = d ∧ digitChar10 d ≠ '+' ∧
      digitChar10 d ≠ '-' := by
  interval_cases d <;> exact ⟨rfl, rfl, by decide, by decide, by decide, by decide,
    by decide, by decide⟩

/-- Every character of `natRepr n` is `digitChar10 d` for some digit `d`. -/
theorem mem_natRepr (n : Nat) {c : Char} (hc : c ∈ natRepr n) :
    ∃ d, d < 10 ∧ c = digitChar10 d := by
  rw [natRepr] at hc
  by_cases h0 : n = 0
  · rw [if_pos h0] at hc
    refine ⟨0, by omega, ?_⟩
    have hc0 : c = '0' := by simpa using hc
    rw [hc0]
    rfl
  · rw [if_neg h0] at hc
    rcases List.mem_map.mp hc with ⟨d, hd, rfl⟩
    exact ⟨d, Nat.digits_lt_base (by norm_num) (List.mem_reverse.mp hd), rfl⟩

theorem natRepr_ne_nil (n : Nat) : natRepr n ≠ [] := by
  rw [natRepr]
  by_cases h0 : n = 0
  · rw [if_pos h0]
    simp
  · rw [if_neg h0]
    simp [Nat.digits_ne_nil_iff_ne_zero.mpr h0]

theorem natRepr_isDigit (n : Nat) : ∀ c ∈ natRepr n, c.isDigit = true := by
  intro c hc
  rcases mem_natRepr n hc with ⟨d, hd, rfl⟩
  exact (digitChar10_facts d hd).1

/-- `digitsVal` recovers the number from its decimal representation. -/
theorem digitsVal_natRepr (n : Nat) : digitsVal (natRepr n) = n := by
  rw [natRepr]
  by_cases h0 : n = 0
  · rw [if_pos h0, h0]
    rfl
  · rw [if_neg h0]
    rw [digitsVal, List.map_reverse, List.foldl_reverse, List.foldr_map]
    have key : ∀ L : List Nat, (∀ d ∈ L, d < 10) →
        L.foldr (fun x y => 10 * y + ((digitChar10 x).toNat - 48)) 0
          = Nat.ofDigits 10 L := by
      intro L
      induction L with
      | nil => intro _; rfl
      | cons d L ih =>
        intro hL
        rw [List.foldr_cons, ih (fun x hx => hL x (List.mem_cons_of_mem d hx)),
          Nat.ofDigits_cons]
        have hd := (digitChar10_facts d (hL d (List.mem_cons_self d L))).2.2.2.2.2.1
        rw [hd]
        ring
    rw [key (Nat.digits 10 n) (fun d hd => Nat.digits_lt_base (by norm_num) hd),
      Nat.ofDigits_digits]


theorem dropWhile_pySpace_eq_self {l : Name}
    (h : ∀ c ∈ l, pySpace c = false) : l.dropWhile pySpace = l := by
  cases l with
  | nil => rfl
  | cons c rest =>
    rw [List.dropWhile_cons, h c (List.mem_cons_self c rest)]
    simp

theorem natRepr_not_pySpace (n : Nat) : ∀ c ∈ natRepr n, pySpace c = false := by
  intro c hc
  rcases mem_natRepr n hc with ⟨d, hd, rfl⟩
  exact (digitChar10_facts d hd).2.1

theorem pyStrip_natRepr (n : Nat) : pyStrip (natRepr n) = natRepr n := by
  rw [pyStrip, dropWhile_pySpace_eq_self (natRepr_not_pySpace n),
    dropWhile_pySpace_eq_self
      (fun c hc => natRepr_not_pySpace n c (List.mem_reverse.mp hc)),
    List.reverse_reverse]

theorem digitCore_cons (c : Char) (rest : Name) :
    digitCore (c :: rest)
      = if c = '_' then
          (match rest with
           | [] => false
           | d :: rest2 => d.isDigit && digitCore rest2)
        else (c.isDigit && digitCore rest) := by
  rw [digitCore.eq_def]
  rfl

theorem digitCore_of_digits : ∀ (l : Name), (∀ c ∈ l, c.isDigit = true) →
    digitCore l = true := by
  intro l
  induction l with
  | nil => intro _; rfl
  | cons c rest ih =>
    intro h
    have hc : c.isDigit = true := h c (List.mem_cons_self c rest)
    have hne : c ≠ '_' := by
      intro he
      rw [he] at hc
      exact absurd hc (by decide)
    rw [digitCore_cons, if_neg hne, hc,
      ih (fun x hx => h x (List.mem_cons_of_mem c hx))]
    rfl

/-- `int(str(n)) == n` for the model. -/
theorem pyInt_natRepr (n : Nat) : pyInt (natRepr n) = some (n : Int) := by
  have hdig := natRepr_isDigit n
  rcases hrep : natRepr n with _ | ⟨c, cs⟩
  · exact absurd hrep (natRepr_ne_nil n)
  · have hc : c ∈ natRepr n := hrep ▸ List.mem_cons_self c cs
    rcases mem_natRepr n hc with ⟨d, hd, hcd⟩
    have hplus : c ≠ '+' := hcd ▸ (digitChar10_facts d hd).2.2.2.2.2.2.1
    have hminus : c ≠ '-' := hcd ▸ (digitChar10_facts d hd).2.2.2.2.2.2.2
    have hstrip : pyStrip (c :: cs) = c :: cs := hrep ▸ pyStrip_natRepr n
    have hbody : pyInt (c :: cs)
        = (if c = '+' then (pyIntCore cs).map (fun k => (k : Int))
           else if c = '-' then (pyIntCore cs).map (fun k => -(k : Int))
           else (pyIntCore (c :: cs)).map (fun k => (k : Int))) := by
      rw [pyInt.eq_def, hstrip]
    rw [hbody, if_neg hplus, if_neg hminus]
    have hcdig : c.isDigit = true := hdig c hc
    have hcore : digitCore cs = true :=
      digitCore_of_digits cs (fun x hx => hdig x (hrep ▸ List.mem_cons_of_mem c hx))
    have hcorebody : pyIntCore (c :: cs)
        = some (digitsVal ((c :: cs).filter (· ≠ '_'))) := by
      have hstep : pyIntCore (c :: cs)
          = if c.isDigit && digitCore cs
            then some (digitsVal ((c :: cs).filter (· ≠ '_'))) else none := rfl
      rw [hstep, hcdig, hcore]
      rfl
    rw [hcorebody]
    have hfilter : (c :: cs).filter (· ≠ '_') = c :: cs := by
      apply List.filter_eq_self.mpr
      intro a ha
      have hmem : a ∈ natRepr n := hrep ▸ ha
      rcases mem_natRepr n hmem with ⟨e, he, rfl⟩
      simpa using (digitChar10_facts e he).2.2.1
    rw [hfilter, ← hrep, digitsVal_natRepr]
    rfl


/-- `"page_"` does not occur in `str(n) ++ ".csv"`: every occurrence would
put `'g'` among digits and `".csv"`. -/
theorem pageSep_not_infix_tail (n : Nat) :
    ¬ ("page_".toList <:+: (natRepr n ++ ".csv".toList)) := by
  intro h
  have hg : 'g' ∈ natRepr n ++ ".csv".toList := h.subset (by decide)
  rcases List.mem_append.mp hg with hg | hg
  · have := natRepr_isDigit n 'g' hg
    exact absurd this (by decide)
  · exact absurd hg (by decide)

theorem dot_not_mem_natRepr (n : Nat) : '.' ∉ natRepr n := by
  intro h
  rcases mem_natRepr n h with ⟨d, hd, he⟩
  exact (digitChar10_facts d hd).2.2.2.1 he.symm

/-- The sort key parses for every path of the form
`p ++ "page_" ++ str(n) ++ ".csv"` — in particular for every artifact the
renaming step emits, whatever the sanitized prefix (even one containing
`"page_"` or dots). -/
theorem pageKey_eq (p : Name) (n : Nat) :
    pageKey (p ++ ("page_".toList ++ (natRepr n ++ ".csv".toList))) = some (n : Int) := by
  rw [pageKey, lastSeg_pageSep p _ (pageSep_not_infix_tail n)]
  have hsplit : natRepr n ++ ".csv".toList = natRepr n ++ '.' :: "csv".toList := rfl
  rw [hsplit, firstSeg_dot (natRepr n) _ (dot_not_mem_natRepr n), pyInt_natRepr]


/-- C10: page-combine for a business-filtered query orders its inputs by
`int(x.split('page_')[-1].split('.')[0])`.  (a) The parse succeeds for every
artifact path the renaming step produces, whatever the sanitized state and
business names; (b) for any matched file whose key segment `int` rejects,
the exception is not caught by the per-file isolation: the whole combine
aborts, reading no file and writing no output. -/
theorem combine_page_parse_total_or_abort :
    (∀ (dl : Name) (s b : String) (n : Nat) (now : PyDateTime) (path : Name),
      rename_downloaded_file dl true s (some b) n now = some path →
      pageKey path = some (n : Int)) ∧
    (∀ (fs : List FSEntry) (dl : Name) (s b : String) (e : FSEntry),
      e ∈ globStar fs (queryDir dl s (some b)) (queryPre s (some b)) ".csv".toList →
      entryKey (queryDir dl s (some b)) e = none →
      combine_csv_files fs dl s (some b) = .error ()) := by
  constructor
  · intro dl s b n now path hpath
    have hform : path = joinP dl (fmtS s ++ '_' :: fmtL b.toList ++ "_page_".toList
        ++ natRepr n ++ ".csv".toList) := by
      have : rename_downloaded_file dl true s (some b) n now
          = some (joinP dl (fmtS s ++ '_' :: fmtL b.toList ++ "_page_".toList
              ++ natRepr n ++ ".csv".toList)) := rfl
      rw [this] at hpath
      exact (Option.some.inj hpath).symm
    have hsplit : path = (dl ++ '/' :: (fmtS s ++ '_' :: fmtL b.toList ++ ['_']))
        ++ ("page_".toList ++ (natRepr n ++ ".csv".toList)) := by
      rw [hform, joinP]
      simp
    rw [hsplit]
    exact pageKey_eq _ n
  · intro fs dl s b e hmem hkey
    apply combine_some_eq_error
    intro hall
    have := List.all_eq_true.mp hall e hmem
    rw [hkey] at this
    simp at this

/-- Witness for C10: a concrete renamed artifact's key parses to its page
number, and one matched file with a non-numeric segment aborts the combine. -/
theorem combine_page_parse_total_or_abort_witness :
    pageKey ((("d".toList ++ '/' :: (fmtS "Gujarat" ++ '_' :: fmtL "Trading".toList ++ ['_']))
        ++ ("page_".toList ++ (natRepr 2 ++ ".csv".toList)))) = some (2 : Int) ∧
    combine_csv_files
        [⟨"dl/Gujarat_Trading".toList, "Gujarat_Trading_page_x.csv".toList,
           false, 0, some ["r"]⟩]
        "dl".toList "Gujarat" (some "Trading") = .error () :=
  ⟨by
    have h := combine_page_parse_total_or_abort.1 "d".toList "Gujarat" "Trading" 2
      ⟨2025, 1, 1, 0, 0, 0⟩ _ rfl
    have hsplit : joinP "d".toList (fmtS "Gujarat" ++ '_' :: fmtL "Trading".toList
        ++ "_page_".toList ++ natRepr 2 ++ ".csv".toList)
        = (("d".toList ++ '/' :: (fmtS "Gujarat" ++ '_' :: fmtL "Trading".toList ++ ['_']))
            ++ ("page_".toList ++ (natRepr 2 ++ ".csv".toList))) := by
      rw [joinP]
      simp
    rw [← hsplit]
    exact h,
   combine_page_parse_total_or_abort.2 _ _ "Gujarat" "Trading"
     ⟨"dl/Gujarat_Trading".toList, "Gujarat_Trading_page_x.csv".toList,
        false, 0, some ["r"]⟩ (by decide) (by decide)⟩

theorem natRepr_length_of_lt {n k : Nat} (h1 : 10 ^ k ≤ n) (h2 : n < 10 ^ (k + 1)) :
    (natRepr n).length = k + 1 := by
  have hn0 : n ≠ 0 := by
    have : 1 ≤ 10 ^ k := Nat.one_le_pow k 10 (by norm_num)
    omega
  rw [natRepr, if_neg hn0]
  rw [List.length_map, List.length_reverse,
    Nat.digits_len 10 n (by norm_num) hn0,
    Nat.log_eq_of_pow_le_of_lt_pow h1 h2]

theorem natRepr_year_length {y : Nat} (h1 : 1000 ≤ y) (h2 : y ≤ 9999) :
    (natRepr y).length = 4 :=
  natRepr_length_of_lt (by norm_num; omega) (by norm_num; omega)

theorem natRepr_small_length {n : Nat} (h : n < 10) : (natRepr n).length = 1 := by
  by_cases h0 : n = 0
  · rw [natRepr, if_pos h0]
    rfl
  · exact natRepr_length_of_lt (k := 0) (by omega) (by norm_num; omega)

theorem pad2_length {n : Nat} (h : n ≤ 99) : (pad2 n).length = 2 := by
  rw [pad2]
  by_cases h10 : n < 10
  · rw [if_pos h10]
    simp [natRepr_small_length h10]
  · rw [if_neg h10]
    exact natRepr_length_of_lt (k := 1) (by norm_num; omega) (by norm_num; omega)

theorem digitsVal_cons_zero (l : Name) : digitsVal ('0' :: l) = digitsVal l := rfl

theorem digitsVal_pad2 (n : Nat) : digitsVal (pad2 n) = n := by
  rw [pad2]
  by_cases h10 : n < 10
  · rw [if_pos h10, digitsVal_cons_zero, digitsVal_natRepr]
  · rw [if_neg h10, digitsVal_natRepr]

/-- `%Y%m%d%H%M%S` is injective on valid capture instants. -/
theorem strftimeYmdHMS_inj {t1 t2 : PyDateTime} (h1 : validDT t1)
    (h2 : validDT t2) (heq : strftimeYmdHMS t1 = strftimeYmdHMS t2) :
    t1 = t2 := by
  obtain ⟨hy1, hy1', hmo1, hmo1', hd1, hd1', hh1, hmi1, hs1⟩ := h1
  obtain ⟨hy2, hy2', hmo2, hmo2', hd2, hd2', hh2, hmi2, hs2⟩ := h2
  rw [strftimeYmdHMS, strftimeYmdHMS] at heq
  have hslen : (pad2 t1.second).length = (pad2 t2.second).length := by
    rw [pad2_length (by omega), pad2_length (by omega)]
  rcases List.append_inj' heq hslen with ⟨heq, hs⟩
  have hmilen : (pad2 t1.minute).length = (pad2 t2.minute).length := by
    rw [pad2_length (by omega), pad2_length (by omega)]
  rcases List.append_inj' heq hmilen with ⟨heq, hmi⟩
  have hhlen : (pad2 t1.hour).length = (pad2 t2.hour).length := by
    rw [pad2_length (by omega), pad2_length (by omega)]
  rcases List.append_inj' heq hhlen with ⟨heq, hh⟩
  have hdlen : (pad2 t1.day).length = (pad2 t2.day).length := by
    rw [pad2_length (by omega), pad2_length (by omega)]
  rcases List.append_inj' heq hdlen with ⟨heq, hd⟩
  have hmolen : (pad2 t1.month).length = (pad2 t2.month).length := by
    rw [pad2_length (by omega), pad2_length (by omega)]
  rcases List.append_inj' heq hmolen with ⟨hy, hmo⟩
  have ey : t1.year = t2.year := by
    have := congrArg digitsVal hy
    rwa [digitsVal_natRepr, digitsVal_natRepr] at this
  have emo : t1.month = t2.month := by
    have := congrArg digitsVal hmo
    rwa [digitsVal_pad2, digitsVal_pad2] at this
  have ed : t1.day = t2.day := by
    have := congrArg digitsVal hd
    rwa [digitsVal_pad2, digitsVal_pad2] at this
  have eh : t1.hour = t2.hour := by
    have := congrArg digitsVal hh
    rwa [digitsVal_pad2, digitsVal_pad2] at this
  have emi : t1.minute = t2.minute := by
    have := congrArg digitsVal hmi
    rwa [digitsVal_pad2, digitsVal_pad2] at this
  have es : t1.second = t2.second := by
    have := congrArg digitsVal hs
    rwa [digitsVal_pad2, digitsVal_pad2] at this
  cases t1
  cases t2
  simp_all

theorem runPagination_time_lb :
    ∀ (script : List IterOutcome) (page t : Nat),
      ∀ a ∈ (runPagination script page t).1, t + 5 ≤ a.2 := by
  intro script
  induction script with
  | nil => intro page t a ha; simp [runPagination] at ha
  | cons ev rest ih =>
    intro page t a ha
    cases ev with
    | exportFail w => simp [runPagination] at ha
    | fileTimeout w => simp [runPagination] at ha
    | nextFail w =>
      rw [runPagination] at ha
      have ha' : a = (page, t + 5 + w) := by simpa using ha
      rw [ha']
      simp
    | advance preW postW =>
      rw [runPagination] at ha
      rcases List.mem_cons.mp ha with rfl | ha
      · simp
      · have := ih (page + 1) (t + preW + postW + 11) a ha
        omega

/-- Artifact capture times strictly increase along a session. -/
theorem runPagination_times_strict :
    ∀ (script : List IterOutcome) (page t : Nat),
      List.Pairwise (fun a b : Nat × Nat => a.2 < b.2)
        (runPagination script page t).1 := by
  intro script
  induction script with
  | nil => simp [runPagination]
  | cons ev rest ih =>
    intro page t
    cases ev with
    | exportFail w => simp [runPagination]
    | fileTimeout w => simp [runPagination]
    | nextFail w => simp [runPagination]
    | advance preW postW =>
      rw [runPagination]
      refine List.Pairwise.cons ?_ (ih (page + 1) (t + preW + postW + 11))
      intro b hb
      have := runPagination_time_lb rest (page + 1) (t + preW + postW + 11) b hb
      simp only []
      omega

/-- C6: if the next-page control is never found after page 1's export, the
session emits exactly one artifact (page 1) and Terminates. -/
theorem pagination_terminates_after_one_export :
    ∀ (preW : Nat) (rest : List IterOutcome) (t : Nat),
      runPagination (IterOutcome.nextFail preW :: rest) 1 t
        = ([(1, t + 5 + preW)], true) := by
  intro preW rest t
  rfl

theorem forgetOutcome_queryRun (outcome : Query → Except String Unit)
    (q : Query) : forgetOutcome (queryRun outcome q) = .attempted q true := by
  rw [queryRun]
  cases outcome q <;> rfl

/-- C5: per-query failure isolation. Whatever each Query's session does —
including raising anywhere from Setup through pagination and combining —
`main` visits exactly the same sequence of attempts, skips and per-state
consolidations as an all-success run: one failure never removes a sibling
Query or a consolidation from the trace. -/
theorem per_query_failure_isolation (outcome : Query → Except String Unit) :
    (mainTrace outcome).map forgetOutcome
      = (mainTrace (fun _ => .ok ())).map forgetOutcome := by
  have hstate : ∀ (o : Query → Except String Unit) (s : String),
      (runFilteredState o s).map forgetOutcome
        = (business_types.map (fun bt =>
            if s = "Maharashtra" ∧ bt = "Business Services" then
              RunEvent.skipped ⟨s, some bt⟩
            else RunEvent.attempted ⟨s, some bt⟩ true)) ++ [.consolidated s] := by
    intro o s
    rw [runFilteredState, List.map_append, List.map_map]
    congr 1
    apply List.map_congr_left
    intro bt _
    by_cases hsk : s = "Maharashtra" ∧ bt = "Business Services"
    · simp [hsk, forgetOutcome]
    · simp only [Function.comp_apply, if_neg hsk]
      exact forgetOutcome_queryRun o ⟨s, some bt⟩
  have hmain : ∀ (o : Query → Except String Unit),
      (mainTrace o).map forgetOutcome
        = (business_filtered_states.map (fun s =>
            (business_types.map (fun bt =>
              if s = "Maharashtra" ∧ bt = "Business Services" then
                RunEvent.skipped ⟨s, some bt⟩
              else RunEvent.attempted ⟨s, some bt⟩ true)) ++ [.consolidated s])).flatten
          ++ other_states.map (fun s => RunEvent.attempted ⟨s, none⟩ true) := by
    intro o
    rw [mainTrace, List.map_append, List.map_flatten, List.map_map, List.map_map]
    congr 1
    · congr 1
      apply List.map_congr_left
      intro s _
      exact hstate o s
    · apply List.map_congr_left
      intro s _
      exact forgetOutcome_queryRun o ⟨s, none⟩
  rw [hmain outcome, hmain (fun _ => .ok ())]


/-- C9: an unfiltered-state page artifact is named
`{state}_{timestamp}.csv` under the download directory, with the capture
instant at second resolution (first conjunct); two captures at distinct
(valid) instants — same day included — receive distinct file paths (second
conjunct); and within one session the capture instants of the emitted
artifacts strictly increase, the fixed sleeps putting at least 11 seconds
between consecutive renames, so the artifacts' paths never collide (third
conjunct). -/
theorem unfiltered_artifact_naming_unique :
    (∀ (dl : Name) (s : String) (p : Nat) (now : PyDateTime),
      rename_downloaded_file dl true s none p now
        = some (joinP dl (fmtS s ++ '_' :: strftimeYmdHMS now ++ ".csv".toList))) ∧
    (∀ (dl : Name) (s : String) (p1 p2 : Nat) (t1 t2 : PyDateTime),
      validDT t1 → validDT t2 → t1 ≠ t2 →
      rename_downloaded_file dl true s none p1 t1
        ≠ rename_downloaded_file dl true s none p2 t2) ∧
    (∀ (script : List IterOutcome) (page t : Nat),
      List.Pairwise (fun a b : Nat × Nat => a.2 < b.2)
        (runPagination script page t).1) := by
  refine ⟨fun _ _ _ _ => rfl, ?_, runPagination_times_strict⟩
  intro dl s p1 p2 t1 t2 hv1 hv2 hne heq
  have h1 : rename_downloaded_file dl true s none p1 t1
      = some (joinP dl (fmtS s ++ '_' :: strftimeYmdHMS t1 ++ ".csv".toList)) := rfl
  have h2 : rename_downloaded_file dl true s none p2 t2
      = some (joinP dl (fmtS s ++ '_' :: strftimeYmdHMS t2 ++ ".csv".toList)) := rfl
  rw [h1, h2] at heq
  have hname : fmtS s ++ '_' :: strftimeYmdHMS t1 ++ ".csv".toList
      = fmtS s ++ '_' :: strftimeYmdHMS t2 ++ ".csv".toList :=
    joinP_inj_right (Option.some.inj heq)
  have hmid : '_' :: (strftimeYmdHMS t1 ++ ['.', 'c', 's', 'v'])
      = '_' :: (strftimeYmdHMS t2 ++ ['.', 'c', 's', 'v']) :=
    List.append_cancel_left
      (show fmtS s ++ ('_' :: (strftimeYmdHMS t1 ++ ['.', 'c', 's', 'v']))
          = fmtS s ++ ('_' :: (strftimeYmdHMS t2 ++ ['.', 'c', 's', 'v'])) by
        simpa [List.append_assoc] using hname)
  have htail : strftimeYmdHMS t1 ++ ['.', 'c', 's', 'v']
      = strftimeYmdHMS t2 ++ ['.', 'c', 's', 'v'] := by
    injection hmid with h1 h2
  have hst : strftimeYmdHMS t1 = strftimeYmdHMS t2 :=
    List.append_cancel_right htail
  exact hne (strftimeYmdHMS_inj hv1 hv2 hst)

/-- Witness for C9: two same-day capture instants one second apart yield
distinct artifact paths. -/
theorem unfiltered_artifact_naming_unique_witness :
    rename_downloaded_file "d".toList true "Goa" none 1 ⟨2025, 10, 12, 9, 30, 0⟩
      ≠ rename_downloaded_file "d".toList true "Goa" none 2 ⟨2025, 10, 12, 9, 30, 1⟩ :=
  unfiltered_artifact_naming_unique.2.1 "d".toList "Goa" 1 2 _ _
    (by constructor <;> norm_num) (by constructor <;> norm_num) (by decide)
